import Mathlib

/-!
Verification of the retrieval-augmented query pipeline of this repository
(`src/orchestrator/rag_workflow.py`, `src/orchestrator/llm_client.py`,
`src/backend/routers/chat.py`, `src/knowledge_base/ingest.py`),
as a shallow embedding in Lean 4.

Documents (langchain `Document` objects) are modelled by their fields that the
pipeline reads: `page_content` and the two metadata keys `source` and
`session_id` (absent keys modelled by `none`).
-/

namespace Rag

/-- A langchain `Document` as seen by this pipeline: its text and the two
metadata entries the code reads or writes (`metadata["source"]`,
`metadata["session_id"]`); a missing key is `none`. -/
structure Doc where
  page_content : String
  source : Option String
  session_id : Option String
deriving DecidableEq, Repr

/-- `SYSTEM_DOCS` from `rag_workflow.py` (`retrieve`): the fixed allowlist of
system-partition document identifiers. -/
def SYSTEM_DOCS : List String :=
  ["01_Customer_FAQ_Guide.pdf",
   "02_New_Meter_Application_Process.pdf",
   "03_Billing_Dispute_Resolution_Procedure.pdf",
   "04_Emergency_Response_Protocol.pdf",
   "05_Payment_Plans_Financial_Assistance.pdf"]

/-- The filter `{"source": {"$in": SYSTEM_DOCS}}` as a predicate on documents:
the metadata `source` exists and is in the allowlist. -/
def system_filter (d : Doc) : Bool :=
  match d.source with
  | some s => decide (s ∈ SYSTEM_DOCS)
  | none => false

/-- The filter `{"source": {"$nin": SYSTEM_DOCS}}` as a predicate on documents:
the metadata `source` exists and is not in the allowlist (a SQL `NOT IN`
comparison against a missing key does not match). -/
def session_filter (d : Doc) : Bool :=
  match d.source with
  | some s => !decide (s ∈ SYSTEM_DOCS)
  | none => false

/-- Modelled from the spec: the external vector-index capability
`vector_search(query_text, k, partition_filter)` (`PGVector.similarity_search`
is a collaborator, not repository code). The index is abstracted as a ranking
function `rank : String → List Doc` giving, for each query string, the full
similarity-ordered list of stored documents; a filtered search returns the
first `k` documents of that ranking that satisfy the metadata filter. -/
def similarity_search (rank : String → List Doc) (q : String) (k : Nat)
    (filt : Doc → Bool) : List Doc :=
  ((rank q).filter filt).take k

/-- One sub-query's result list in `retrieve` (`rag_workflow.py:108-118`):
`docs_system + docs_session`, each search capped at `k=5`. -/
def sub_query_result (rank : String → List Doc) (q : String) : List Doc :=
  similarity_search rank q 5 system_filter ++ similarity_search rank q 5 session_filter

/-- `all_query_results` in `retrieve`: one result list per sub-query, in
sub-query order. -/
def all_query_results (rank : String → List Doc) (queries : List String) :
    List (List Doc) :=
  queries.map (sub_query_result rank)

/-- `max_results` in `retrieve` (`rag_workflow.py:122`):
`max(len(res) for res in all_query_results) if all_query_results else 0`
(the merge loop is untyped in Python, so it is embedded polymorphically). -/
def max_results {α : Type} (all : List (List α)) : Nat :=
  if all.isEmpty then 0 else (all.map List.length).foldl Nat.max 0

/-- The inner loop of the fair merge (`rag_workflow.py:124-126`): one round `i`,
appending `query_res[i]` for each list that still has an index-`i` element. -/
def merge_round {α : Type} (all : List (List α)) (i : Nat) (acc : List α) :
    List α :=
  all.foldl (fun acc query_res =>
    match query_res[i]? with
    | some d => acc ++ [d]
    | none => acc) acc

/-- `merged_docs` in `retrieve` (`rag_workflow.py:120-126`): the fair
interleave, looping `i` over `range(max_results)`. -/
def merged_docs {α : Type} (all : List (List α)) : List α :=
  (List.range (max_results all)).foldl (fun acc i => merge_round all i acc) []

/-- The deduplication loop of `retrieve` (`rag_workflow.py:128-134`), with the
accumulated `unique_docs` list and `seen_content` set (a set is modelled as the
list of inserted strings; only insertion and membership are used). -/
def dedup_fold (docs : List Doc) : List Doc × List String :=
  docs.foldl (fun acc doc =>
    if doc.page_content ∈ acc.2 then acc
    else (acc.1 ++ [doc], acc.2 ++ [doc.page_content])) ([], [])

/-- `unique_docs` in `retrieve`: first occurrence of each `page_content` wins. -/
def unique_docs (docs : List Doc) : List Doc :=
  (dedup_fold docs).1

/-- `final_docs` in `retrieve` (`rag_workflow.py:137`): `unique_docs[:12]`. -/
def final_docs (docs : List Doc) : List Doc :=
  (unique_docs docs).take 12

/-- `context` in `retrieve` (`rag_workflow.py:139`). -/
def context_of (docs : List Doc) : List String :=
  docs.map Doc.page_content

/-- `doc.metadata.get("source", "Unknown")` (`rag_workflow.py:140`). -/
def source_of (d : Doc) : String :=
  d.source.getD "Unknown"

/-- `sources` in `retrieve` (`rag_workflow.py:140`):
`list(set(doc.metadata.get("source", "Unknown") for doc in final_docs))`.
Python's `set` iteration order is unspecified, so the list is modelled up to
its underlying set by `List.dedup`. -/
def sources_of (docs : List Doc) : List String :=
  (docs.map source_of).dedup

/-! ### Query decomposer (`rewrite_query`, `rag_workflow.py:51-83`) -/

/-- Python `s.strip(chars)`: remove every leading and trailing character that
appears in `chars`. -/
def py_strip_chars (chars : List Char) (s : String) : String :=
  ⟨(((s.toList.dropWhile (chars.contains ·)).reverse.dropWhile
      (chars.contains ·)).reverse)⟩

/-- Python `s.strip()`: remove leading and trailing whitespace. -/
def py_strip_ws (s : String) : String :=
  ⟨(((s.toList.dropWhile Char.isWhitespace).reverse.dropWhile
      Char.isWhitespace).reverse)⟩

/-- `q.strip().strip(",").strip('"')` (`rag_workflow.py:76`). -/
def clean_line (q : String) : String :=
  py_strip_chars ['"'] (py_strip_chars [','] (py_strip_ws q))

/-- Python `content.split("\n")` (`rag_workflow.py:75`): split on every
newline, keeping empty pieces (`"".split("\n") == [""]`). -/
def split_lines (content : String) : List String :=
  (content.toList.splitOn '\n').map List.asString

/-- The list comprehension of `rag_workflow.py:75-76`: split the model output
on newlines, keep lines that are non-empty after whitespace stripping, and
clean each kept line. -/
def parse_queries (content : String) : List String :=
  ((split_lines content).filter (fun q => !(py_strip_ws q).isEmpty)).map clean_line

/-- Errors a pipeline invocation can raise (Python exceptions). -/
inductive PyErr
  /-- `TypeError`: a function called with the wrong number of positional
  arguments. -/
  | typeError
  /-- A dependency (vector index or model backend) refused the connection. -/
  | connectionError
  /-- The named model does not exist at the backend. -/
  | modelNotFound
deriving DecidableEq, Repr

/-- `rag_workflow.py:74-82` given the model call's outcome: on success, parse
the response content and fall back to `[query]` when no sub-queries survive
(`rag_workflow.py:79-80`); an exception from the model call propagates, since
`rewrite_query` contains no `try`/`except`. -/
def rewrite_query (query : String) (response : Except PyErr String) :
    Except PyErr (List String) :=
  response.map (fun content =>
    let queries := parse_queries content
    if queries.isEmpty then [query] else queries)

/-! ### LLM client (`llm_client.py`) and Python call semantics -/

/-- Default of `OLLAMA_URL` (`llm_client.py:7`). -/
def OLLAMA_URL : String := "http://localhost:11434"

/-- Default of `MODEL_NAME` (`llm_client.py:12`). -/
def MODEL_NAME : String := "gpt-oss:120b-cloud"

/-- The `ChatOllama(...)` object constructed by `get_llm`. -/
structure ChatOllamaModel where
  model : String
  base_url : String
  temperature : Nat
deriving DecidableEq, Repr

/-- `get_llm` (`llm_client.py:14-19`): a function of zero parameters returning
`ChatOllama(model=MODEL_NAME, base_url=OLLAMA_URL, temperature=0)`. -/
def get_llm : ChatOllamaModel :=
  { model := MODEL_NAME, base_url := OLLAMA_URL, temperature := 0 }

/-- The number of parameters in `get_llm`'s definition: `def get_llm():`. -/
def get_llm_param_count : Nat := 0

/-- A Python value passed as an argument (`state.get("model_name")` is either
`None` or a string). -/
inductive PyValue
  | vNone
  | vStr (s : String)
deriving DecidableEq, Repr

/-- View an optional string as the Python value it denotes. -/
def py_of_option : Option String → PyValue
  | some s => .vStr s
  | none => .vNone

/-- Python positional-call semantics for `get_llm`: calling a function defined
with zero parameters raises `TypeError` unless the argument list is empty. -/
def call_get_llm (args : List PyValue) : Except PyErr ChatOllamaModel :=
  if args.length = get_llm_param_count then .ok get_llm else .error .typeError

/-! ### The three graph nodes with their dependency calls explicit.
The model backend is abstracted by oracles: `invoke` gives the chat model's
response for a constructed llm object (and, for generation, a context). -/

/-- Node 1, `rewrite_query` (`rag_workflow.py:51-83`): build the llm via
`get_llm(model_name)` (one positional argument, line 69), invoke the chain,
then parse with fallback. -/
def rewrite_query_node (model_name : Option String)
    (invoke : ChatOllamaModel → Except PyErr String) (query : String) :
    Except PyErr (List String) :=
  (call_get_llm [py_of_option model_name]).bind (fun local_llm =>
    rewrite_query query (invoke local_llm))

/-- The per-sub-query search loop of node 2 (`rag_workflow.py:108-118`) with a
fallible index: each sub-query runs a system-filtered then a session-filtered
search, and the first raised exception aborts the whole loop. -/
def retrieve_results (search : String → (Doc → Bool) → Except PyErr (List Doc)) :
    List String → Except PyErr (List (List Doc))
  | [] => .ok []
  | q :: qs =>
    (search q system_filter).bind (fun docs_system =>
      (search q session_filter).bind (fun docs_session =>
        (retrieve_results search qs).map (fun rest =>
          (docs_system ++ docs_session) :: rest)))

/-- Node 2, `retrieve` (`rag_workflow.py:86-143`) with a fallible index:
search per sub-query, fair-merge, deduplicate, cap, and project context and
sources. `retrieve` contains no `try`/`except`, so index errors propagate. -/
def retrieve_node (search : String → (Doc → Bool) → Except PyErr (List Doc))
    (queries : List String) : Except PyErr (List String × List String) :=
  (retrieve_results search queries).map (fun all =>
    (context_of (final_docs (merged_docs all)),
     sources_of (final_docs (merged_docs all))))

/-- Node 3, `generate_answer` (`rag_workflow.py:146-191`): build the llm via
`get_llm(model_name)` (one positional argument, lines 169/186), then invoke
the chain on the context; errors propagate. -/
def generate_answer_node (model_name : Option String)
    (invoke : ChatOllamaModel → List String → Except PyErr String)
    (context : List String) : Except PyErr String :=
  (call_get_llm [py_of_option model_name]).bind (fun local_llm =>
    invoke local_llm context)

/-- The compiled graph (`rag_workflow.py:194-205`): the straight-line pipeline
rewrite → retrieve → generate, with each node's exceptions propagating. -/
def rag_workflow_run (model_name : Option String)
    (invoke_rewrite : ChatOllamaModel → Except PyErr String)
    (invoke_generate : ChatOllamaModel → List String → Except PyErr String)
    (search : String → (Doc → Bool) → Except PyErr (List Doc))
    (query : String) : Except PyErr (String × List String) :=
  (rewrite_query_node model_name invoke_rewrite query).bind (fun queries =>
    (retrieve_node search queries).bind (fun cs =>
      (generate_answer_node model_name invoke_generate cs.1).map (fun answer =>
        (answer, cs.2))))

/-! ### Chat endpoint (`backend/routers/chat.py:61-88`) -/

/-- The HTTP response body on success. -/
structure ChatResponse where
  answer : String
  sources : List String
deriving DecidableEq, Repr

/-- What `chat_endpoint` does with the workflow invocation: a normal
`ChatResponse`, or a raised `HTTPException`. -/
inductive EndpointResult
  | response (r : ChatResponse)
  | httpException (status : Nat) (detail : PyErr)
deriving DecidableEq, Repr

/-- `chat_endpoint`'s `try`/`except` (`chat.py:61-88`): a successful workflow
result becomes `ChatResponse(answer, sources)`; any exception is re-raised as
`HTTPException(status_code=500, detail=str(e))`. -/
def chat_endpoint (workflow_result : Except PyErr (String × List String)) :
    EndpointResult :=
  match workflow_result with
  | .ok r => .response { answer := r.1, sources := r.2 }
  | .error e => .httpException 500 e

/-! ### Ingestion (`knowledge_base/ingest.py:251-268`) -/

/-- The configuration of `RecursiveCharacterTextSplitter` (an external
capability): the size and overlap arguments the code passes. -/
structure TextSplitterConfig where
  chunk_size : Nat
  chunk_overlap : Nat
deriving DecidableEq, Repr

/-- `text_splitter` in `process_document` (`ingest.py:257`):
`RecursiveCharacterTextSplitter(chunk_size=1000, chunk_overlap=200)`. -/
def text_splitter : TextSplitterConfig :=
  { chunk_size := 1000, chunk_overlap := 200 }

/-- Python truthiness of an optional string (`if session_id:`): `None` and the
empty string are falsy. -/
def py_truthy : Option String → Bool
  | none => false
  | some s => !s.isEmpty

/-- The metadata/content normalisation loop of `process_document`
(`ingest.py:261-266`): every split's `source` is set to the filename, its
`session_id` is set when a session id is supplied (truthy), and its content is
prefixed with the document marker. -/
def annotate_splits (pdf_file : String) (session_id : Option String)
    (splits : List Doc) : List Doc :=
  splits.map (fun split =>
    { page_content := "--- Document: " ++ pdf_file ++ " ---\n" ++ split.page_content
      source := some pdf_file
      session_id := if py_truthy session_id then session_id else split.session_id })

/-! ### Specification-side definitions, written from the spec's words, to be
compared with the embedded code. -/

/-- Tag every element of every list with the index of its originating list
(starting at `k`); used to state the round-robin slicing property of the fair
merge. -/
def tag_from {α : Type} (k : Nat) : List (List α) → List (List (Nat × α))
  | [] => []
  | l :: ls => l.map (fun a => (k, a)) :: tag_from (k + 1) ls

/-- From the spec's words: the subsequence of first occurrences by text — the
element at index `i` is kept exactly when its `page_content` does not occur at
an earlier index. -/
def first_occurrences (docs : List Doc) : List Doc :=
  (List.range docs.length).filterMap (fun i =>
    docs[i]?.bind (fun d =>
      if d.page_content ∈ (docs.take i).map Doc.page_content then none
      else some d))

/-- The deduplication loop in structurally recursive form (proved equal to
`unique_docs` below): skip a document whose text is in `seen`, otherwise keep
it and extend `seen`. -/
def dedup_go (seen : List String) : List Doc → List Doc
  | [] => []
  | d :: ds =>
    if d.page_content ∈ seen then dedup_go seen ds
    else d :: dedup_go (seen ++ [d.page_content]) ds

/-- Like `first_occurrences` but with an initial set `seen` of already-seen
texts; the generalisation needed for the induction. -/
def keep_from (seen : List String) (docs : List Doc) : List Doc :=
  (List.range docs.length).filterMap (fun i =>
    docs[i]?.bind (fun d =>
      if d.page_content ∈ seen ∨ d.page_content ∈ (docs.take i).map Doc.page_content
      then none else some d))

/-! ## Lemmas about the fair-interleave merge -/

theorem merge_round_eq {α : Type} (all : List (List α)) (i : Nat) (acc : List α) :
    merge_round all i acc = acc ++ all.filterMap (fun res => res[i]?) := by
  induction all generalizing acc with
  | nil => simp [merge_round]
  | cons l ls ih =>
    have h0 : merge_round (l :: ls) i acc
        = merge_round ls i (match l[i]? with | some d => acc ++ [d] | none => acc) := rfl
    rw [h0, ih]
    cases h : l[i]? with
    | some d => simp [List.filterMap_cons, h]
    | none => simp [List.filterMap_cons, h]

theorem foldl_append_eq_flatMap {α β : Type} (g : β → List α) :
    ∀ (l : List β) (acc : List α),
      l.foldl (fun acc i => acc ++ g i) acc = acc ++ l.flatMap g := by
  intro l
  induction l with
  | nil => simp
  | cons b bs ih => intro acc; simp [ih, List.flatMap_cons]

theorem merged_docs_eq_flatMap {α : Type} (all : List (List α)) :
    merged_docs all
      = (List.range (max_results all)).flatMap
          (fun i => all.filterMap (fun res => res[i]?)) := by
  unfold merged_docs
  simp only [merge_round_eq]
  exact foldl_append_eq_flatMap _ _ []

theorem le_foldl_max (l : List Nat) (a : Nat) : a ≤ l.foldl Nat.max a := by
  induction l generalizing a with
  | nil => exact Nat.le_refl a
  | cons x xs ih => exact Nat.le_trans (Nat.le_max_left a x) (ih (Nat.max a x))

theorem mem_le_foldl_max (l : List Nat) (a : Nat) : ∀ x ∈ l, x ≤ l.foldl Nat.max a := by
  induction l generalizing a with
  | nil => intro x hx; cases hx
  | cons y ys ih =>
    intro x hx
    rcases List.mem_cons.mp hx with h | h
    · subst h; exact Nat.le_trans (Nat.le_max_right a x) (le_foldl_max ys (Nat.max a x))
    · exact ih (Nat.max a y) x h

theorem length_le_max_results {α : Type} (all : List (List α)) (res : List α)
    (h : res ∈ all) : res.length ≤ max_results all := by
  unfold max_results
  cases all with
  | nil => cases h
  | cons l ls =>
    simp only [List.isEmpty_cons, if_neg Bool.false_ne_true]
    exact mem_le_foldl_max _ 0 res.length (List.mem_map_of_mem List.length h)

theorem tag_from_fst_ge {α : Type} :
    ∀ (k : Nat) (lss : List (List α)) (l : List (Nat × α)) (p : Nat × α),
      l ∈ tag_from k lss → p ∈ l → k ≤ p.1 := by
  intro k lss
  induction lss generalizing k with
  | nil => intro l p hl; cases hl
  | cons l0 ls ih =>
    intro l p hl hp
    rcases List.mem_cons.mp hl with h | h
    · subst h
      rcases List.mem_map.mp hp with ⟨a, _, ha⟩
      subst ha; exact Nat.le_refl k
    · exact Nat.le_trans (Nat.le_succ k) (ih (k + 1) l p h hp)

theorem tag_round_filter {α : Type} (i : Nat) :
    ∀ (lss : List (List α)) (k j : Nat),
      ((tag_from k lss).filterMap (fun l => l[i]?)).filter
          (fun p => decide (p.1 = k + j))
        = ((((lss.getD j [])[i]?).map (fun a => (k + j, a))).toList) := by
  intro lss
  induction lss with
  | nil => intro k j; simp [tag_from]
  | cons l ls ih =>
    intro k j
    have hrest : ∀ p ∈ (tag_from (k + 1) ls).filterMap (fun l => l[i]?), k + 1 ≤ p.1 := by
      intro p hp
      rcases List.mem_filterMap.mp hp with ⟨l', hl', hget⟩
      exact tag_from_fst_ge (k + 1) ls l' p hl' (List.getElem?_mem hget)
    cases j with
    | zero =>
      have hrest0 : ((tag_from (k + 1) ls).filterMap (fun l => l[i]?)).filter
          (fun p => decide (p.1 = k + 0)) = [] := by
        refine List.filter_eq_nil_iff.mpr ?_
        intro p hp
        have := hrest p hp
        simp only [Nat.add_zero, decide_eq_true_eq]
        omega
      cases h : l[i]? with
      | none =>
        simp only [tag_from, List.filterMap_cons, List.getElem?_map, h,
          Option.map_none', List.getD_cons_zero, Option.toList_none]
        exact hrest0
      | some a =>
        simp only [tag_from, List.filterMap_cons, List.getElem?_map, h,
          Option.map_some', List.getD_cons_zero, List.filter_cons, hrest0,
          Option.toList_some]
        simp
    | succ j' =>
      have harith : k + (j' + 1) = (k + 1) + j' := by omega
      cases h : l[i]? with
      | none =>
        simp only [tag_from, List.filterMap_cons, List.getElem?_map, h,
          Option.map_none', List.getD_cons_succ]
        rw [harith, ih (k + 1) j']
      | some a =>
        simp only [tag_from, List.filterMap_cons, List.getElem?_map, h,
          Option.map_some', List.filter_cons, List.getD_cons_succ]
        have hne : (decide ((k, a).1 = k + (j' + 1))) = false := by
          simp only [decide_eq_false_iff_not]
          omega
        rw [hne]
        simp only [Bool.false_eq_true, if_false]
        rw [harith, ih (k + 1) j']

theorem range_filterMap_getElem_take {α : Type} (l : List α) :
    ∀ n, (List.range n).filterMap (fun i => l[i]?) = l.take n := by
  intro n
  induction n with
  | zero => simp
  | succ n ih =>
    rw [List.range_succ, List.filterMap_append, ih, List.take_succ]
    cases h : l[n]? <;> simp [h]

theorem flatMap_toList_eq_filterMap {α β : Type} (f : α → Option β) (l : List α) :
    l.flatMap (fun a => (f a).toList) = l.filterMap f := by
  induction l with
  | nil => simp
  | cons a as ih => cases h : f a <;> simp [List.flatMap_cons, h, ih]

theorem tag_from_component_mem {α : Type} :
    ∀ (lss : List (List α)) (k j : Nat), j < lss.length →
      ((lss.getD j []).map (fun a => (k + j, a))) ∈ tag_from k lss := by
  intro lss
  induction lss with
  | nil => intro k j h; simp at h
  | cons l ls ih =>
    intro k j h
    cases j with
    | zero => simp [tag_from]
    | succ j' =>
      have h' : j' < ls.length := by simpa using h
      have := ih (k + 1) j' h'
      have harith : k + (j' + 1) = (k + 1) + j' := by omega
      simp only [List.getD_cons_succ, tag_from, List.mem_cons]
      right
      rw [harith]
      exact this

theorem getD_length_le_max_results {α : Type} (lss : List (List α)) (j : Nat) :
    (lss.getD j []).length ≤ max_results (tag_from 0 lss) := by
  by_cases h : j < lss.length
  · have hmem := tag_from_component_mem lss 0 j h
    have := length_le_max_results (tag_from 0 lss) _ hmem
    simpa using this
  · rw [List.getD_eq_default _ _ (Nat.le_of_not_lt h)]
    exact Nat.zero_le _

/-- C1: the retriever's merge step produces exactly the fair-interleave
sequence — for each index `i` below the longest list's length and for each
result list in order, the element at index `i` is appended when it exists —
and, sliced by originating list (elements tagged with their list's position),
the output restricted to list `j` is exactly list `j` in order: each round
contributes at most one element per list, in list order, skipping exhausted
lists. -/
theorem claim_C1 :
    (∀ (α : Type) (all : List (List α)),
       merged_docs all
         = (List.range (max_results all)).flatMap
             (fun i => all.filterMap (fun res => res[i]?)))
    ∧ (∀ (α : Type) (all : List (List α)), ∀ res ∈ all, res.length ≤ max_results all)
    ∧ (∀ (α : Type) (lss : List (List α)) (j : Nat),
        ((merged_docs (tag_from 0 lss)).filter (fun p => decide (p.1 = j))).map
            Prod.snd
          = lss.getD j []) := by
  refine ⟨fun α all => merged_docs_eq_flatMap all,
          fun α all res h => length_le_max_results all res h,
          fun α lss j => ?_⟩
  rw [merged_docs_eq_flatMap, List.filter_flatMap]
  have hround : ∀ i : Nat,
      ((tag_from 0 lss).filterMap (fun l => l[i]?)).filter
          (fun p => decide (p.1 = j))
        = (((lss.getD j [])[i]?).map (fun a => (j, a))).toList := by
    intro i
    have := tag_round_filter i lss 0 j
    simpa using this
  simp only [hround]
  rw [List.map_flatMap]
  have hsnd : ∀ i : Nat,
      (((((lss.getD j [])[i]?).map (fun a => (j, a))).toList).map Prod.snd)
        = ((lss.getD j [])[i]?).toList := by
    intro i; cases h : (lss.getD j [])[i]? <;> simp [h]
  simp only [Function.comp_def, hsnd]
  rw [flatMap_toList_eq_filterMap, range_filterMap_getElem_take]
  exact List.take_of_length_le (getD_length_le_max_results lss j)

theorem claim_C1_witness :
    [3, 4].length ≤ max_results ([[1, 2], [3, 4], [5]] : List (List Nat)) :=
  claim_C1.2.1 Nat [[1, 2], [3, 4], [5]] [3, 4] (by decide)

/-- C2: the final context is the deduplicated merge truncated to its first 12
chunks, so its length is `min 12 (dedup (merge inputs)).length` and in
particular never exceeds 12, whatever the per-sub-query inputs were. -/
theorem claim_C2 :
    ∀ all : List (List Doc),
      final_docs (merged_docs all) = (unique_docs (merged_docs all)).take 12
      ∧ (context_of (final_docs (merged_docs all))).length
          = min 12 (unique_docs (merged_docs all)).length
      ∧ (context_of (final_docs (merged_docs all))).length ≤ 12 := by
  intro all
  have h1 : (context_of (final_docs (merged_docs all))).length
      = min 12 (unique_docs (merged_docs all)).length := by
    simp [context_of, final_docs]
  exact ⟨rfl, h1, by rw [h1]; exact Nat.min_le_left _ _⟩

/-! ## Lemmas about the deduplication step -/

theorem dedup_fold_go (docs : List Doc) :
    ∀ (accD : List Doc) (seen : List String),
      docs.foldl (fun acc doc =>
          if doc.page_content ∈ acc.2 then acc
          else (acc.1 ++ [doc], acc.2 ++ [doc.page_content])) (accD, seen)
        = (accD ++ dedup_go seen docs,
           seen ++ (dedup_go seen docs).map Doc.page_content) := by
  induction docs with
  | nil => intro accD seen; simp [dedup_go]
  | cons d ds ih =>
    intro accD seen
    by_cases h : d.page_content ∈ seen
    · rw [List.foldl_cons]
      simp only [if_pos h]
      rw [ih accD seen]
      simp [dedup_go, if_pos h]
    · rw [List.foldl_cons]
      simp only [if_neg h]
      rw [ih (accD ++ [d]) (seen ++ [d.page_content])]
      simp [dedup_go, if_neg h]

theorem unique_docs_eq_dedup_go (docs : List Doc) :
    unique_docs docs = dedup_go [] docs := by
  unfold unique_docs dedup_fold
  rw [dedup_fold_go docs [] []]
  simp

theorem dedup_go_congr :
    ∀ (docs : List Doc) (seen₁ seen₂ : List String),
      (∀ x, x ∈ seen₁ ↔ x ∈ seen₂) → dedup_go seen₁ docs = dedup_go seen₂ docs := by
  intro docs
  induction docs with
  | nil => intro _ _ _; rfl
  | cons d ds ih =>
    intro s1 s2 h
    by_cases hc : d.page_content ∈ s1
    · rw [dedup_go, if_pos hc, dedup_go, if_pos ((h _).mp hc)]
      exact ih s1 s2 h
    · have hc2 : d.page_content ∉ s2 := fun hx => hc ((h _).mpr hx)
      rw [dedup_go, if_neg hc, dedup_go, if_neg hc2]
      refine congrArg (d :: ·) (ih _ _ ?_)
      intro x
      simp only [List.mem_append]
      exact or_congr (h x) Iff.rfl

theorem keep_from_cons (seen : List String) (d : Doc) (ds : List Doc) :
    keep_from seen (d :: ds)
      = (if d.page_content ∈ seen then [] else [d])
          ++ keep_from (seen ++ [d.page_content]) ds := by
  unfold keep_from
  rw [List.length_cons, List.range_succ_eq_map, List.filterMap_cons, List.filterMap_map]
  have hfs : ∀ i ∈ List.range ds.length,
      ((fun i => (d :: ds)[i]?.bind (fun d' =>
          if d'.page_content ∈ seen ∨ d'.page_content ∈ ((d :: ds).take i).map Doc.page_content
          then none else some d')) ∘ Nat.succ) i
        = (fun i => ds[i]?.bind (fun d' =>
          if d'.page_content ∈ (seen ++ [d.page_content])
              ∨ d'.page_content ∈ (ds.take i).map Doc.page_content
          then none else some d')) i := by
    intro i _
    simp only [Function.comp_apply, List.getElem?_cons_succ]
    cases hv : ds[i]? with
    | none => rfl
    | some d' =>
      simp only [Option.some_bind]
      refine if_congr ?_ rfl rfl
      rw [show (d :: ds).take (Nat.succ i) = d :: ds.take i from rfl]
      simp only [List.map_cons, List.mem_cons, List.mem_append, List.mem_singleton]
      tauto
  rw [List.filterMap_congr hfs]
  simp only [List.getElem?_cons_zero, Option.some_bind, List.take_zero, List.map_nil,
    List.not_mem_nil, or_false]
  by_cases hc : d.page_content ∈ seen
  · rw [if_pos hc, if_pos hc, List.nil_append]
  · rw [if_neg hc, if_neg hc, List.singleton_append]

theorem dedup_go_eq_keep_from :
    ∀ (docs : List Doc) (seen : List String), dedup_go seen docs = keep_from seen docs := by
  intro docs
  induction docs with
  | nil => intro seen; simp [dedup_go, keep_from]
  | cons d ds ih =>
    intro seen
    rw [keep_from_cons]
    by_cases hc : d.page_content ∈ seen
    · rw [dedup_go, if_pos hc, if_pos hc, List.nil_append]
      rw [dedup_go_congr ds seen (seen ++ [d.page_content])]
      · exact ih _
      · intro x
        simp only [List.mem_append, List.mem_singleton]
        constructor
        · exact Or.inl
        · rintro (hx | rfl)
          · exact hx
          · exact hc
    · rw [dedup_go, if_neg hc, if_neg hc, List.singleton_append]
      exact congrArg (d :: ·) (ih _)

theorem keep_from_nil_eq_first_occurrences (docs : List Doc) :
    keep_from [] docs = first_occurrences docs := by
  unfold keep_from first_occurrences
  refine List.filterMap_congr ?_
  intro i _
  cases hv : docs[i]? with
  | none => rfl
  | some d =>
    simp only [Option.some_bind]
    refine if_congr ?_ rfl rfl
    simp

theorem dedup_go_not_mem_seen :
    ∀ (docs : List Doc) (seen : List String) (x : String),
      x ∈ (dedup_go seen docs).map Doc.page_content → x ∉ seen := by
  intro docs
  induction docs with
  | nil => intro seen x hx; simp [dedup_go] at hx
  | cons d ds ih =>
    intro seen x hx
    by_cases hc : d.page_content ∈ seen
    · rw [dedup_go, if_pos hc] at hx
      exact ih seen x hx
    · rw [dedup_go, if_neg hc] at hx
      rcases List.mem_cons.mp hx with h | h
      · subst h; exact hc
      · intro hmem
        exact ih _ x h (List.mem_append.mpr (Or.inl hmem))

theorem dedup_go_nodup :
    ∀ (docs : List Doc) (seen : List String),
      ((dedup_go seen docs).map Doc.page_content).Nodup := by
  intro docs
  induction docs with
  | nil => intro seen; simp [dedup_go]
  | cons d ds ih =>
    intro seen
    by_cases hc : d.page_content ∈ seen
    · rw [dedup_go, if_pos hc]; exact ih seen
    · rw [dedup_go, if_neg hc]
      rw [List.map_cons, List.nodup_cons]
      refine ⟨fun hmem => ?_, ih _⟩
      exact dedup_go_not_mem_seen ds _ _ hmem
        (List.mem_append.mpr (Or.inr (List.mem_singleton.mpr rfl)))

theorem dedup_go_sublist :
    ∀ (docs : List Doc) (seen : List String), List.Sublist (dedup_go seen docs) docs := by
  intro docs
  induction docs with
  | nil => intro seen; simp [dedup_go]
  | cons d ds ih =>
    intro seen
    by_cases hc : d.page_content ∈ seen
    · rw [dedup_go, if_pos hc]; exact (ih seen).cons d
    · rw [dedup_go, if_neg hc]; exact (ih _).cons₂ d

/-- C3: the deduplication step keeps a chunk exactly when its text has not
occurred at an earlier position of the scan — the output is the subsequence of
first occurrences by text (hence an order-preserving sublist of the merged
input with pairwise-distinct texts). -/
theorem claim_C3 :
    ∀ docs : List Doc,
      unique_docs docs = first_occurrences docs
      ∧ List.Sublist (unique_docs docs) docs
      ∧ ((unique_docs docs).map Doc.page_content).Nodup := by
  intro docs
  rw [unique_docs_eq_dedup_go]
  exact ⟨(dedup_go_eq_keep_from docs []).trans (keep_from_nil_eq_first_occurrences docs),
         dedup_go_sublist docs [], dedup_go_nodup docs []⟩

/-- C4: every sub-query independently runs exactly two similarity searches,
each capped at `k = 5` — a system-partition search whose every result has a
source in the allowlist and a session-partition search whose every result has
a source outside it — and its result list is the system results followed by
the session results. -/
theorem claim_C4 :
    ∀ (rank : String → List Doc) (queries : List String),
      all_query_results rank queries = queries.map (sub_query_result rank)
      ∧ ∀ q : String,
          sub_query_result rank q
            = similarity_search rank q 5 system_filter
                ++ similarity_search rank q 5 session_filter
          ∧ (similarity_search rank q 5 system_filter).length ≤ 5
          ∧ (similarity_search rank q 5 session_filter).length ≤ 5
          ∧ (∀ d ∈ similarity_search rank q 5 system_filter,
              ∃ s, d.source = some s ∧ s ∈ SYSTEM_DOCS)
          ∧ (∀ d ∈ similarity_search rank q 5 session_filter,
              ∃ s, d.source = some s ∧ s ∉ SYSTEM_DOCS) := by
  intro rank queries
  refine ⟨rfl, fun q => ⟨rfl, List.length_take_le 5 _, List.length_take_le 5 _, ?_, ?_⟩⟩
  · intro d hd
    have hf : system_filter d = true :=
      List.of_mem_filter (List.mem_of_mem_take hd)
    cases hs : d.source with
    | none => simp [system_filter, hs] at hf
    | some s => exact ⟨s, rfl, by simpa [system_filter, hs] using hf⟩
  · intro d hd
    have hf : session_filter d = true :=
      List.of_mem_filter (List.mem_of_mem_take hd)
    cases hs : d.source with
    | none => simp [session_filter, hs] at hf
    | some s => exact ⟨s, rfl, by simpa [session_filter, hs] using hf⟩

theorem claim_C4_witness :
    (∃ s, (Doc.mk "sys chunk" (some "01_Customer_FAQ_Guide.pdf") none).source
        = some s ∧ s ∈ SYSTEM_DOCS)
    ∧ (∃ s, (Doc.mk "notes chunk" (some "notes.txt") (some "s1")).source
        = some s ∧ s ∉ SYSTEM_DOCS) := by
  have h := (claim_C4 (fun _ =>
    [Doc.mk "sys chunk" (some "01_Customer_FAQ_Guide.pdf") none,
     Doc.mk "notes chunk" (some "notes.txt") (some "s1")]) ["FAQ hours"]).2 "FAQ hours"
  exact ⟨h.2.2.2.1 (Doc.mk "sys chunk" (some "01_Customer_FAQ_Guide.pdf") none) (by decide),
         h.2.2.2.2 (Doc.mk "notes chunk" (some "notes.txt") (some "s1")) (by decide)⟩

/-- C7: the returned `sources` value contains a string exactly when it is the
source identifier of some chunk of the capped context, holds no duplicates
(chunks from the same document collapse to one entry), and in the scenario
where two sub-queries both return one identical chunk, the context holds its
text once and `sources` holds its document once. -/
theorem claim_C7 :
    (∀ all : List (List Doc),
      (∀ s, s ∈ sources_of (final_docs (merged_docs all))
          ↔ ∃ d ∈ final_docs (merged_docs all), source_of d = s)
      ∧ (sources_of (final_docs (merged_docs all))).Nodup)
    ∧ (∀ d : Doc,
        context_of (final_docs (merged_docs [[d], [d]])) = [d.page_content]
        ∧ sources_of (final_docs (merged_docs [[d], [d]])) = [source_of d]) := by
  constructor
  · intro all
    constructor
    · intro s
      unfold sources_of
      rw [List.mem_dedup, List.mem_map]
    · exact List.nodup_dedup _
  · intro d
    have hm : merged_docs [[d], [d]] = [d, d] := rfl
    have hu : unique_docs [d, d] = [d] := by
      simp [unique_docs, dedup_fold]
    have hf : final_docs [d, d] = [d] := by
      rw [final_docs, hu]
      rfl
    rw [hm, hf]
    exact ⟨rfl, by simp [sources_of]⟩

/-- C5 as stated is false on the code: when the model call itself raises, the
decomposer does not fall back to `[query]` — the exception propagates
(`rewrite_query` contains no `try`/`except`). -/
theorem claim_C5_counterexample :
    rewrite_query "What are the FAQ hours" (.error .connectionError)
      = .error .connectionError
    ∧ rewrite_query "What are the FAQ hours" (.error .connectionError)
      ≠ .ok ["What are the FAQ hours"] := by
  exact ⟨rfl, fun h => Except.noConfusion h⟩

/-- C5 amended: when the model call succeeds and its output parses to zero
usable sub-queries, the decomposer returns the single-element sequence holding
the original query; when the model call itself fails, the exception propagates
to the caller instead of a fallback. -/
theorem claim_C5 :
    (∀ (query content : String), parse_queries content = [] →
        rewrite_query query (.ok content) = .ok [query])
    ∧ (∀ (query : String) (e : PyErr), rewrite_query query (.error e) = .error e) := by
  constructor
  · intro query content h
    simp [rewrite_query, Except.map, h]
  · intro query e
    rfl

theorem claim_C5_witness :
    rewrite_query "What are the FAQ hours" (.ok "") = .ok ["What are the FAQ hours"] :=
  claim_C5.1 "What are the FAQ hours" "" (by decide)

/-- C6 as stated is false on the code: nothing enforces the upper bound of 3
sub-queries, and a stripped line can be empty. On the response
`",\n,\n,\n,"` the decomposer returns four sub-queries, all empty. -/
theorem claim_C6_counterexample :
    rewrite_query "q" (.ok ",\n,\n,\n,") = .ok ["", "", "", ""]
    ∧ ¬ (((["", "", "", ""] : List String).length ≤ 3)
          ∧ ∀ s ∈ (["", "", "", ""] : List String), s ≠ "") := by
  exact ⟨rfl, by decide⟩

/-- C6 amended: for every query and successful model response, the decomposer
returns at least one string — exactly the lines of the output that are
non-empty after whitespace stripping, in order, each stripped of whitespace,
then leading and trailing commas, then surrounding quotes (and possibly empty
after that), or the single original query when no line survives; no upper
bound of 3 is enforced. -/
theorem claim_C6 :
    ∀ (query content : String), ∃ l,
      rewrite_query query (.ok content) = .ok l
      ∧ 1 ≤ l.length
      ∧ (((split_lines content).filter (fun q => !(py_strip_ws q).isEmpty) = []
            ∧ l = [query])
          ∨ l = ((split_lines content).filter
              (fun q => !(py_strip_ws q).isEmpty)).map clean_line) := by
  intro query content
  by_cases h : parse_queries content = []
  · refine ⟨[query], by simp [rewrite_query, Except.map, h], by simp, Or.inl ⟨?_, rfl⟩⟩
    exact List.map_eq_nil_iff.mp h
  · refine ⟨parse_queries content, ?_, List.length_pos.mpr h, Or.inr rfl⟩
    simp [rewrite_query, Except.map, List.isEmpty_iff, h]

/-- C9: `get_llm` is defined with zero parameters, yet both the decomposition
and the generation node call it with one positional argument (the state's
`model_name`), so each such call raises `TypeError` before any model request
is issued, and the per-invocation model selector never influences the
outcome. -/
theorem claim_C9 :
    get_llm_param_count = 0
    ∧ (∀ mn : Option String, call_get_llm [py_of_option mn] = .error .typeError)
    ∧ (∀ (mn : Option String) (invoke : ChatOllamaModel → Except PyErr String)
        (query : String),
        rewrite_query_node mn invoke query = .error .typeError)
    ∧ (∀ (mn : Option String)
        (invoke : ChatOllamaModel → List String → Except PyErr String)
        (context : List String),
        generate_answer_node mn invoke context = .error .typeError)
    ∧ (∀ (mn mn' : Option String)
        (invoke invoke' : ChatOllamaModel → Except PyErr String) (query : String),
        rewrite_query_node mn invoke query = rewrite_query_node mn' invoke' query) :=
  ⟨rfl, fun _ => rfl, fun _ _ _ => rfl, fun _ _ _ => rfl, fun _ _ _ _ _ => rfl⟩

/-- C8: a workflow invocation in which the vector index raises a connection
error, or the generation model call fails (connection error or unknown model),
surfaces an `HTTPException` to the caller and never completes normally with a
`ChatResponse`; the endpoint maps every raised error to status 500, and the
retrieval stage itself propagates an index failure unhandled. -/
theorem claim_C8 :
    (∀ (st : Except PyErr (String × List String)) (e : PyErr),
        st = .error e → chat_endpoint st = .httpException 500 e)
    ∧ (∀ (st : Except PyErr (String × List String)) (r : ChatResponse),
        chat_endpoint st = .response r → st = .ok (r.answer, r.sources))
    ∧ (∀ (search : String → (Doc → Bool) → Except PyErr (List Doc))
        (q : String) (qs : List String) (e : PyErr),
        search q system_filter = .error e → retrieve_node search (q :: qs) = .error e)
    ∧ (∀ (mn : Option String) (ir : ChatOllamaModel → Except PyErr String)
        (ig : ChatOllamaModel → List String → Except PyErr String)
        (search : String → (Doc → Bool) → Except PyErr (List Doc)) (query : String),
        ((∀ (q : String) (f : Doc → Bool),
            search q f = (.error .connectionError : Except PyErr (List Doc)))
          ∨ (∀ (llm : ChatOllamaModel) (ctx : List String),
              ig llm ctx = (.error .connectionError : Except PyErr String))
          ∨ (∀ (llm : ChatOllamaModel) (ctx : List String),
              ig llm ctx = (.error .modelNotFound : Except PyErr String)))
        → (∃ e, chat_endpoint (rag_workflow_run mn ir ig search query)
              = .httpException 500 e)
          ∧ ∀ r, chat_endpoint (rag_workflow_run mn ir ig search query)
              ≠ .response r) := by
  refine ⟨?_, ?_, ?_, ?_⟩
  · intro st e h
    subst h
    rfl
  · intro st r h
    cases st with
    | ok v =>
      simp only [chat_endpoint, EndpointResult.response.injEq] at h
      rw [← h]
    | error e =>
      exact EndpointResult.noConfusion h
  · intro search q qs e h
    simp [retrieve_node, retrieve_results, h, Except.bind, Except.map]
  · intro mn ir ig search query _
    exact ⟨⟨.typeError, rfl⟩, fun r hr => EndpointResult.noConfusion hr⟩

theorem claim_C8_witness :
    ((∃ e, chat_endpoint (rag_workflow_run none (fun _ => .ok "ignored")
        (fun _ _ => .error .connectionError) (fun _ _ => .error .connectionError) "q")
        = .httpException 500 e)
      ∧ ∀ r, chat_endpoint (rag_workflow_run none (fun _ => .ok "ignored")
        (fun _ _ => .error .connectionError) (fun _ _ => .error .connectionError) "q")
        ≠ .response r)
    ∧ retrieve_node (fun _ _ => .error .connectionError) ["FAQ hours"]
        = .error .connectionError :=
  ⟨claim_C8.2.2.2 none (fun _ => .ok "ignored") (fun _ _ => .error .connectionError)
      (fun _ _ => .error .connectionError) "q" (Or.inl (fun _ _ => rfl)),
   claim_C8.2.2.1 (fun _ _ => .error .connectionError) "FAQ hours" [] .connectionError rfl⟩

/-- C10: ingestion configures the splitter with chunk size 1000 and overlap
200, and every produced chunk carries the source filename (and the session
identifier when one is supplied) in its metadata and has its stored text
prefixed with the document marker naming the file. -/
theorem claim_C10 :
    text_splitter.chunk_size = 1000
    ∧ text_splitter.chunk_overlap = 200
    ∧ ∀ (pdf_file : String) (session_id : Option String) (splits : List Doc),
        ∀ d ∈ annotate_splits pdf_file session_id splits,
          d.source = some pdf_file
          ∧ (py_truthy session_id = true → d.session_id = session_id)
          ∧ ∃ rest, d.page_content = "--- Document: " ++ pdf_file ++ " ---\n" ++ rest := by
  refine ⟨rfl, rfl, ?_⟩
  intro pdf_file sid splits d hd
  rcases List.mem_map.mp hd with ⟨split, _, rfl⟩
  refine ⟨rfl, ?_, ⟨split.page_content, rfl⟩⟩
  intro ht
  simp [ht]

theorem claim_C10_witness :
    (Doc.mk "--- Document: f.pdf ---\nhello" (some "f.pdf") (some "s1")).source
      = some "f.pdf"
    ∧ (Doc.mk "--- Document: f.pdf ---\nhello" (some "f.pdf") (some "s1")).session_id
      = some "s1"
    ∧ ∃ rest, (Doc.mk "--- Document: f.pdf ---\nhello" (some "f.pdf") (some "s1")).page_content
      = "--- Document: " ++ "f.pdf" ++ " ---\n" ++ rest := by
  have h := claim_C10.2.2 "f.pdf" (some "s1") [Doc.mk "hello" none none]
    (Doc.mk "--- Document: f.pdf ---\nhello" (some "f.pdf") (some "s1")) (by decide)
  exact ⟨h.1, h.2.1 (by decide), h.2.2⟩

end Rag
